import Mathlib

/-!
Shallow embedding of `keccak256/src/gates/running_sum.rs`: the running-sum
gate, the special end-of-lane chunk gate, the block-count accumulation and
final-bound gates, the chunk slicer, and the per-lane rotate-conversion
orchestration.  Finite-field values are modelled as `ZMod p` (the code is
generic over a prime field), arbitrary-precision `BigUint` values as `ℕ`,
and gate polynomials as explicit functions of the queried cell values.
-/

/-- Modelled from the spec: base of the input digit string (`B13` from
`arith_helpers`, not under `src/`). -/
def B13 : ℕ := 13

/-- Modelled from the spec: base of the output digit string (`B9` from
`arith_helpers`, not under `src/`). -/
def B9 : ℕ := 9

/-- Modelled from the spec: number of digit positions of a lane
(`LANE_SIZE` from `common`, not under `src/`). -/
def LANE_SIZE : ℕ := 64

/-- Step size of the digit group starting at `chunk_idx`, mirroring
`get_step_size`: usually 4 chunks, shortened near the rotation position
and near the end of the lane. -/
def get_step_size (chunk_idx rotation : ℕ) : ℕ :=
  -- BASE_NUM_OF_CHUNKS = 4
  if chunk_idx < rotation ∧ rotation < chunk_idx + 4 then
    rotation - chunk_idx
  else if chunk_idx < LANE_SIZE ∧ LANE_SIZE < chunk_idx + 4 then
    LANE_SIZE - chunk_idx
  else
    4

/-- Mirrors `is_at_rotation_offset`: the point where the power of 9 starts
from 1 again. -/
def is_at_rotation_offset (chunk_idx rotation : ℕ) : Bool :=
  chunk_idx == LANE_SIZE - rotation

/-- Loop body of `slice_lane`.  The source iterates `while chunk_idx < 64`;
every step size is at least 1, so `LANE_SIZE` iterations of fuel are enough
to run the loop to completion exactly as the source does. -/
def slice_lane_go (rotation : ℕ) : ℕ → ℕ → List (ℕ × ℕ)
  | 0, _ => []
  | fuel + 1, chunk_idx =>
    if chunk_idx < LANE_SIZE then
      let step := get_step_size chunk_idx rotation
      (chunk_idx + step, step) :: slice_lane_go rotation fuel (chunk_idx + step)
    else []

/-- Mirrors `slice_lane`: chunk_idx starts from 1 because the 0th chunk is
for the low value from the theta step; each loop turn records
`(chunk_idx after increment, step)`. -/
def slice_lane (rotation : ℕ) : List (ℕ × ℕ) :=
  slice_lane_go rotation LANE_SIZE 1

/-- Digit positions covered by a group schedule, threading the start
position: a group `(end_idx, step)` whose predecessor ended at `start`
covers `start, start+1, …, start+step-1`, and the next group starts at
`end_idx`. -/
def covered_positions : ℕ → List (ℕ × ℕ) → List ℕ
  | _, [] => []
  | start, (e, s) :: rest => List.range' start s ++ covered_positions e rest

/-- Modelled from the spec: an opaque handle to an assigned witness cell, a
(column, row) relation usable in later equality constraints (halo2 `Cell`,
outside this core). -/
structure Cell where
  col : ℕ
  row : ℕ
deriving DecidableEq, Repr

/-- Modelled from the spec: a finite-field value together with its opaque
cell handle (`Lane` from `gate_helpers`, not under `src/`). -/
structure Lane (F : Type) where
  cell : Cell
  value : F
deriving DecidableEq, Repr

/-- Modelled from the spec: a bounded block-count field value plus its cell
handle (`BlockCount` from `gate_helpers`, not under `src/`);
`BlockCount2 F` is the pair of the two parallel totals. -/
structure BlockCount (F : Type) where
  cell : Cell
  value : F
deriving DecidableEq, Repr

/-- Modelled from the spec: the error type of the constraint-system
substrate; value-conversion paths only ever report `synthesisError`
(halo2 `Error::SynthesisError`). -/
inductive RsError where
  | synthesisError
deriving DecidableEq, Repr

/-- Modelled from the spec: the observable effect of one scoped assignment
region — which rows had the activation selector enabled, which
(column, row, value) witness assignments were written, and which pairs of
cell handles were constrained equal. -/
structure RegionTrace (F : Type) where
  enabled : List ℕ
  assignments : List (ℕ × ℕ × F)
  equalities : List (Cell × Cell)
deriving DecidableEq, Repr

/-- Modelled from the spec: conversion from a field element to an
arbitrary-precision integer (`f_to_biguint` from `arith_helpers`, not under
`src/`); a canonical field representative always fits in a `BigUint`, so
the conversion always succeeds. -/
def f_to_biguint {p : ℕ} (x : ZMod p) : Option ℕ := some x.val

/-- Modelled from the spec: fallible embedding of an arbitrary-precision
integer into the field (`biguint_to_f` from `arith_helpers`, not under
`src/`); it fails exactly when the value does not fit the target finite
field. -/
def biguint_to_f (p : ℕ) (n : ℕ) : Option (ZMod p) :=
  if n < p then some (n : ZMod p) else none

/-- Mirrors `RotatingVariables`: the per-lane scratch state threaded across
the chunk rows.  `BigUint` fields are `ℕ`; `block_count_acc` is the pair of
the step-2 and step-3 field accumulators. -/
structure RotatingVariables (F : Type) where
  input_raw : ℕ
  input_power_of_base : ℕ
  input_acc : ℕ
  output_power_of_base : ℕ
  output_acc : ℕ
  block_count_acc : F × F
deriving DecidableEq, Repr

/-- Pure value constructed by `RotatingVariables::from` once the lane value
has been converted to a `BigUint`. -/
def rotating_variables_init {p : ℕ} (input_raw : ℕ) (rotation : ℕ) :
    RotatingVariables (ZMod p) :=
  -- chunk_idx = 1
  { input_raw := input_raw
    input_power_of_base := B13
    input_acc := input_raw
    output_power_of_base :=
      if is_at_rotation_offset 1 rotation then 1 else B9 ^ (rotation + 1)
    output_acc := 0
    block_count_acc := (0, 0) }

/-- Mirrors `RotatingVariables::from`: convert the base-13 lane value to a
`BigUint` (propagating a synthesis error on failure) and initialize the
rotating state. -/
def RotatingVariables.«from» {p : ℕ} (lane_base_13 : ZMod p) (rotation : ℕ) :
    Except RsError (RotatingVariables (ZMod p)) :=
  match f_to_biguint lane_base_13 with
  | none => .error .synthesisError
  | some input_raw => .ok (rotating_variables_init input_raw rotation)

/-- Mirrors `RunningSumConfig::assign_region`: convert `coef`,
`power_of_base` and `acc` into the field (propagating a synthesis error on
an embedding failure) and write them into the three advice columns at the
given row offset.  No selector is enabled here. -/
def running_sum_assign_region (p : ℕ) (coef_col pob_col acc_col : ℕ)
    (offset : ℕ) (coef power_of_base acc : ℕ) :
    Except RsError (RegionTrace (ZMod p)) :=
  match biguint_to_f p coef with
  | none => .error .synthesisError
  | some c =>
    match biguint_to_f p power_of_base with
    | none => .error .synthesisError
    | some pb =>
      match biguint_to_f p acc with
      | none => .error .synthesisError
      | some a =>
        .ok { enabled := []
              assignments := [(coef_col, offset, c), (pob_col, offset, pb),
                (acc_col, offset, a)]
              equalities := [] }

/-- Mirrors the "validate base_9_acc" gate from
`SpecialChunkConfig::configure`: one polynomial, multiplied by the queried
selector, with `pow_of_9 = F::from_u64(B9).pow(rotation) = 9^rotation`. -/
def special_chunk_gate {F : Type} [CommRing F] (rotation : ℕ)
    (q_enable last_b9_coef base_9_acc base_9_acc_next : F) : List F :=
  let delta_base_9_acc := base_9_acc_next - base_9_acc
  let pow_of_9 : F := (B9 : F) ^ rotation
  [q_enable * (delta_base_9_acc - last_b9_coef * pow_of_9)]

/-- Mirrors `SpecialChunkConfig::assign_region`: enable the selector at the
offset, write the base-13 accumulator there and zero on the following row,
write the base-9 accumulator there, and on the following row the final lane
value `base_9_acc + ((high_value + low_value) mod 2) * 9^rotation`, which
is also returned as a `Lane` with the cell of that last assignment. -/
def special_chunk_assign_region (p : ℕ) (rotation : ℕ)
    (base_13_acc_col base_9_acc_col : ℕ) (offset : ℕ)
    (low_value high_value base_13_acc base_9_acc : ℕ) :
    Except RsError (RegionTrace (ZMod p) × Lane (ZMod p)) :=
  match biguint_to_f p base_13_acc with
  | none => .error .synthesisError
  | some a13 =>
    match biguint_to_f p base_9_acc with
    | none => .error .synthesisError
    | some a9 =>
      let last_pow_of_9 : ZMod p := (B9 : ZMod p) ^ rotation
      match biguint_to_f p ((high_value + low_value) % 2) with
      | none => .error .synthesisError
      | some last_b9_coef =>
        let value := a9 + last_b9_coef * last_pow_of_9
        .ok ({ enabled := [offset]
               assignments := [(base_13_acc_col, offset, a13),
                 (base_13_acc_col, offset + 1, 0),
                 (base_9_acc_col, offset, a9),
                 (base_9_acc_col, offset + 1, value)]
               equalities := [] },
             { cell := ⟨base_9_acc_col, offset + 1⟩, value := value })

/-- Mirrors the "step2_acc <=12" product of `BlockCountFinalConfig`:
the factors `step2_acc − x` for `x = 0, …, 12`, reduced by
multiplication. -/
def step2_product {F : Type} [CommRing F] (step2_acc : F) : F :=
  ((List.range 13).map (fun x : ℕ => step2_acc - (x : F))).prod

/-- Mirrors the "step3_acc <= 13 * 13" product of `BlockCountFinalConfig`:
the factors `step3_acc − x` for `x = 0, …, 169`, reduced by
multiplication. -/
def step3_product {F : Type} [CommRing F] (step3_acc : F) : F :=
  ((List.range 170).map (fun x : ℕ => step3_acc - (x : F))).prod

/-- Mirrors the "block count final check" gate registered by
`BlockCountFinalConfig::configure`: the two vanishing products, each
multiplied by the queried selector. -/
def block_count_final_gate {F : Type} [CommRing F]
    (q_enable step2_acc step3_acc : F) : List F :=
  [q_enable * step2_product step2_acc, q_enable * step3_product step3_acc]

/-- Mirrors `BlockCountFinalConfig::assign_region`: for each of the 25
supplied block-count pairs, enable the selector on that lane's row, write
both totals into the two advice columns, and constrain each newly assigned
cell equal to the corresponding supplied cell. -/
def block_count_final_assign_region {F : Type} (c0 c1 : ℕ)
    (block_count_cells : Fin 25 → BlockCount F × BlockCount F) :
    RegionTrace F :=
  { enabled := (List.finRange 25).map (fun i => i.val)
    assignments := (List.finRange 25).flatMap (fun i =>
      [(c0, i.val, (block_count_cells i).1.value),
       (c1, i.val, (block_count_cells i).2.value)])
    equalities := (List.finRange 25).flatMap (fun i =>
      [(⟨c0, i.val⟩, (block_count_cells i).1.cell),
       (⟨c1, i.val⟩, (block_count_cells i).2.cell)]) }

/-- Boolean test that a list of naturals is strictly increasing from one
element to the next. -/
def strictly_increasing : List ℕ → Bool
  | [] => true
  | [_] => true
  | a :: b :: rest => a < b && strictly_increasing (b :: rest)

/-- Per-chunk configuration data extracted by
`LaneRotateConversionConfig::configure` from one slicer group: the group's
step size and whether the group sits at the rotation offset. -/
structure ChunkCfg where
  step : ℕ
  is_at_rotation_offset : Bool
deriving DecidableEq, Repr

/-- Mirrors the schedule derivation in
`LaneRotateConversionConfig::configure`: one
`ChunkRotateConversionConfig` per slicer group `(chunk_idx, step)`, carrying
`step` and `is_at_rotation_offset chunk_idx rotation`. -/
def lane_chunk_cfgs (rotation : ℕ) : List ChunkCfg :=
  (slice_lane rotation).map fun g => ⟨g.2, is_at_rotation_offset g.1 rotation⟩

/-- Mirrors the "mul" gate registered by `RunningSumConfig::configure`: the
two polynomials, each multiplied by the queried selector.  `base_to_step`
is `F::from(u64::pow(base, step))`; for the bases and steps the circuit
uses (base 13 or 9, step at most 4) the `u64` power cannot overflow, so it
is the numeral `base ^ step` embedded in the field. -/
def running_sum_gate {F : Type} [CommRing F] (step base : ℕ) (is_input : Bool)
    (q_enable coef power_of_base acc acc_next power_of_base_next : F) :
    List F :=
  let delta_acc := acc_next - acc
  let base_to_step : F := ((base ^ step : ℕ) : F)
  let running_poly :=
    -- input mode runs the accumulator down, output mode runs it up
    if is_input then delta_acc + coef * power_of_base
    else delta_acc - coef * power_of_base
  [q_enable * running_poly,
   q_enable * (power_of_base_next - power_of_base * base_to_step)]

/-- Mirrors the "accumulate block count" gate registered by
`BlockCountAccConfig::configure`, dispatching on the config's step index.
Step indices outside 1–4 make the source abort construction
(`unreachable`); they register no polynomial here. -/
def block_count_acc_gate {F : Type} [CommRing F] (step : ℕ)
    (q_enable block_count step2_acc step3_acc step2_acc_next
      step3_acc_next : F) : List F :=
  let delta_step2 := step2_acc_next - step2_acc
  let delta_step3 := step3_acc_next - step3_acc
  match step with
  | 1 | 4 =>
    [q_enable * block_count, q_enable * delta_step2, q_enable * delta_step3]
  | 2 => [q_enable * (delta_step2 - block_count), q_enable * delta_step3]
  | 3 => [q_enable * delta_step2, q_enable * (delta_step3 - block_count)]
  | _ => []

/-- Mirrors the pure state update that
`ChunkRotateConversionConfig::assign_region` performs on the
`RotatingVariables`, parameterized by the external base-13→base-9 lookup
table `tbl` sending an `input_coef` to `(block_count, output_coef)` (the
table's content is external to this core).  The base-13 side consumes the
low `step` digits of `input_raw`; the base-9 side appends the looked-up
output coefficient; the output power of base resets to 1 at the rotation
offset; the block count is routed into the step-2 or step-3 accumulator
(steps 1 and 4 route nothing; other step values make the source abort). -/
def chunk_assign {p : ℕ} (tbl : ℕ → ℕ × ℕ) (cfg : ChunkCfg)
    (rv : RotatingVariables (ZMod p)) : RotatingVariables (ZMod p) :=
  let input_base_to_step := B13 ^ cfg.step
  let input_coef := rv.input_raw % input_base_to_step
  let bc_oc := tbl input_coef
  let output_base_to_step := B9 ^ cfg.step
  let block_count : ZMod p := (bc_oc.1 : ZMod p)
  { input_raw := rv.input_raw / input_base_to_step
    input_power_of_base := rv.input_power_of_base * input_base_to_step
    input_acc := rv.input_acc - rv.input_power_of_base * input_coef
    output_power_of_base :=
      if cfg.is_at_rotation_offset then 1
      else rv.output_power_of_base * output_base_to_step
    output_acc := rv.output_acc + rv.output_power_of_base * bc_oc.2
    block_count_acc :=
      match cfg.step with
      | 2 => (rv.block_count_acc.1 + block_count, rv.block_count_acc.2)
      | 3 => (rv.block_count_acc.1, rv.block_count_acc.2 + block_count)
      | _ => rv.block_count_acc }

/-- Mirrors the start of `LaneRotateConversionConfig::assign_region` right
after `RotatingVariables::from`: peel the reserved position-0 digit off
`input_raw` as `low_value` (without touching `input_acc`), returning the
low value and the updated state. -/
def lane_peel {p : ℕ} (rv : RotatingVariables (ZMod p)) :
    ℕ × RotatingVariables (ZMod p) :=
  (rv.input_raw % B13, { rv with input_raw := rv.input_raw / B13 })

/-- The `(coef, power_of_base, acc)` triples that
`ChunkRotateConversionConfig::assign_region` hands to the base-13
running-sum gate on the successive chunk rows of one lane. -/
def b13_row_assignments {p : ℕ} (tbl : ℕ → ℕ × ℕ) :
    List ChunkCfg → RotatingVariables (ZMod p) → List (ℕ × ℕ × ℕ)
  | [], _ => []
  | cfg :: rest, rv =>
    (rv.input_raw % B13 ^ cfg.step, rv.input_power_of_base, rv.input_acc)
      :: b13_row_assignments tbl rest (chunk_assign tbl cfg rv)

/-- The output digits produced on the successive chunk rows, each paired
with the output power of base in force when it was produced (the possibly
rotation-reset weight). -/
def output_digits {p : ℕ} (tbl : ℕ → ℕ × ℕ) :
    List ChunkCfg → RotatingVariables (ZMod p) → List (ℕ × ℕ)
  | [], _ => []
  | cfg :: rest, rv =>
    (rv.output_power_of_base, (tbl (rv.input_raw % B13 ^ cfg.step)).2)
      :: output_digits tbl rest (chunk_assign tbl cfg rv)

/-- Integer value of a list of weight-digit pairs. -/
def weighted_sum (l : List (ℕ × ℕ)) : ℕ :=
  (l.map (fun wd => wd.1 * wd.2)).sum

/-- Placeholder instantiation of the external base-13→base-9 lookup table,
used only to evaluate table-independent facts at concrete inputs (the real
table's content is external to this core and not specified). -/
def tableZero : ℕ → ℕ × ℕ := fun _ => (0, 0)

/-- Mirrors the chunk loop of `LaneRotateConversionConfig::assign_region`:
thread the `RotatingVariables` state through the chunk configurations in
schedule order. -/
def chunk_fold {p : ℕ} (tbl : ℕ → ℕ × ℕ) (rv : RotatingVariables (ZMod p))
    (l : List ChunkCfg) : RotatingVariables (ZMod p) :=
  List.foldl (fun s cfg => chunk_assign tbl cfg s) rv l

/-- C2: for every rotation amount `0 ≤ r < 64`, `slice_lane r` is an ordered
sequence of `(end_index, step_size)` pairs whose step sizes all lie in
`{1,2,3,4}` and sum to 63, whose groups cover the digit positions `[1,64)`
exactly once (position 0 is reserved and not covered), and whose end
indices strictly increase, ending at 64. -/
theorem slice_lane_partition :
    ∀ r : Fin 64,
      (∀ g ∈ slice_lane r.val, g.2 = 1 ∨ g.2 = 2 ∨ g.2 = 3 ∨ g.2 = 4)
      ∧ ((slice_lane r.val).map (fun g => g.2)).sum = 63
      ∧ covered_positions 1 (slice_lane r.val) = List.range' 1 63
      ∧ strictly_increasing ((slice_lane r.val).map (fun g => g.1)) = true
      ∧ ((slice_lane r.val).map (fun g => g.1)).getLast? = some LANE_SIZE := by
  decide

/-- C10: `RotatingVariables::from` initializes `input_raw` and `input_acc`
to the full lane value, `input_power_of_base` to 13, `output_acc` to 0, and
`output_power_of_base` to 1 when the rotation is 63 (the only rotation under
64 putting chunk index 1 at the rotation offset) and to `9^(r+1)`
otherwise. -/
theorem rotating_variables_from_spec :
    ∀ (p : ℕ) (lane : ZMod p) (r : Fin 64),
      RotatingVariables.«from» lane r.val =
        Except.ok { input_raw := lane.val
                    input_power_of_base := B13
                    input_acc := lane.val
                    output_power_of_base :=
                      if r.val = 63 then 1 else B9 ^ (r.val + 1)
                    output_acc := 0
                    block_count_acc := (0, 0) } := by
  intro p lane r
  have hr := r.isLt
  by_cases h63 : r.val = 63
  · simp [RotatingVariables.«from», f_to_biguint, rotating_variables_init,
      is_at_rotation_offset, LANE_SIZE, h63]
  · have hne : ¬(1 = 64 - r.val) := by omega
    simp [RotatingVariables.«from», f_to_biguint, rotating_variables_init,
      is_at_rotation_offset, LANE_SIZE, h63, hne]

/-- C3 (code-bug exhibit): for rotation amount 3 — an actual Keccak rotation
constant — the schedule that `LaneRotateConversionConfig::configure` derives
from `slice_lane 3` contains NO group satisfying `is_at_rotation_offset`
(no recorded chunk index equals 64 − 3 = 61: the slicer breaks groups at the
rotation amount 3 rather than at the offset 61), so the claimed exactly-one
property fails and `output_power_of_base` is never reset for this lane. -/
theorem lane_chunk_cfgs_no_group_at_rotation_offset :
    ((lane_chunk_cfgs 3).countP (fun c => c.is_at_rotation_offset)) = 0
    ∧ ((slice_lane 3).map (fun g => g.1)).contains (LANE_SIZE - 3) = false := by
  decide

/-- C5: the running-sum gate consists exactly of the two selector-gated
polynomials; on an enabled row (selector 1) they vanish together exactly
when `acc(next) = acc(cur) − coef·power_of_base` (input mode) respectively
`acc(next) = acc(cur) + coef·power_of_base` (output mode) and
`power_of_base(next) = power_of_base(cur)·base^step`; with selector 0 every
registered polynomial evaluates to 0 whatever the witness values. -/
theorem running_sum_gate_spec :
    ∀ (F : Type) [inst : Field F] (step base : ℕ) (is_input : Bool)
      (coef pob acc acc_next pob_next : F),
      (∀ y ∈ running_sum_gate step base is_input 0 coef pob acc acc_next
          pob_next, y = 0)
      ∧ ((∀ y ∈ running_sum_gate step base true 1 coef pob acc acc_next
            pob_next, y = 0)
          ↔ acc_next = acc - coef * pob
            ∧ pob_next = pob * ((base ^ step : ℕ) : F))
      ∧ ((∀ y ∈ running_sum_gate step base false 1 coef pob acc acc_next
            pob_next, y = 0)
          ↔ acc_next = acc + coef * pob
            ∧ pob_next = pob * ((base ^ step : ℕ) : F)) := by
  intro F inst step base is_input coef pob acc acc_next pob_next
  refine ⟨?_, ?_, ?_⟩
  · intro y hy
    simp only [running_sum_gate, List.mem_cons, List.not_mem_nil, or_false,
      zero_mul] at hy
    rcases hy with h | h <;> simp [h]
  · simp only [running_sum_gate, List.forall_mem_cons, one_mul, if_true]
    constructor
    · rintro ⟨h1, h2, -⟩
      exact ⟨by linear_combination h1, by linear_combination h2⟩
    · rintro ⟨h1, h2⟩
      exact ⟨by linear_combination h1, by linear_combination h2, by simp⟩
  · simp only [running_sum_gate, List.forall_mem_cons, one_mul,
      Bool.false_eq_true, if_false]
    constructor
    · rintro ⟨h1, h2, -⟩
      exact ⟨by linear_combination h1, by linear_combination h2⟩
    · rintro ⟨h1, h2⟩
      exact ⟨by linear_combination h1, by linear_combination h2, by simp⟩

/-- C7: on an enabled row (selector 1) the block-count accumulation gate
with step index 1 or 4 forces the per-row block-count witness to 0 and both
running totals to be unchanged; with step index 2 it forces the step-2
total to advance by exactly the block-count witness and the step-3 total to
be unchanged; with step index 3, symmetrically. -/
theorem block_count_acc_gate_spec :
    ∀ (F : Type) [inst : Field F] (bc s2 s3 s2n s3n : F),
      ((∀ y ∈ block_count_acc_gate 1 1 bc s2 s3 s2n s3n, y = 0)
        ↔ bc = 0 ∧ s2n = s2 ∧ s3n = s3)
      ∧ ((∀ y ∈ block_count_acc_gate 4 1 bc s2 s3 s2n s3n, y = 0)
        ↔ bc = 0 ∧ s2n = s2 ∧ s3n = s3)
      ∧ ((∀ y ∈ block_count_acc_gate 2 1 bc s2 s3 s2n s3n, y = 0)
        ↔ s2n = s2 + bc ∧ s3n = s3)
      ∧ ((∀ y ∈ block_count_acc_gate 3 1 bc s2 s3 s2n s3n, y = 0)
        ↔ s3n = s3 + bc ∧ s2n = s2) := by
  intro F inst bc s2 s3 s2n s3n
  refine ⟨?_, ?_, ?_, ?_⟩
  · simp only [block_count_acc_gate, List.forall_mem_cons, one_mul]
    constructor
    · rintro ⟨h1, h2, h3, -⟩
      exact ⟨by linear_combination h1, by linear_combination h2,
        by linear_combination h3⟩
    · rintro ⟨h1, h2, h3⟩
      exact ⟨by linear_combination h1, by linear_combination h2,
        by linear_combination h3, by simp⟩
  · simp only [block_count_acc_gate, List.forall_mem_cons, one_mul]
    constructor
    · rintro ⟨h1, h2, h3, -⟩
      exact ⟨by linear_combination h1, by linear_combination h2,
        by linear_combination h3⟩
    · rintro ⟨h1, h2, h3⟩
      exact ⟨by linear_combination h1, by linear_combination h2,
        by linear_combination h3, by simp⟩
  · simp only [block_count_acc_gate, List.forall_mem_cons, one_mul]
    constructor
    · rintro ⟨h1, h2, -⟩
      exact ⟨by linear_combination h1, by linear_combination h2⟩
    · rintro ⟨h1, h2⟩
      exact ⟨by linear_combination h1, by linear_combination h2, by simp⟩
  · simp only [block_count_acc_gate, List.forall_mem_cons, one_mul]
    constructor
    · rintro ⟨h1, h2, -⟩
      exact ⟨by linear_combination h2, by linear_combination h1⟩
    · rintro ⟨h1, h2⟩
      exact ⟨by linear_combination h2, by linear_combination h1, by simp⟩

/-- Helper: a product of the factors `x − k` for `k = 0, …, n−1` vanishes
in a field exactly when `x` is one of the field elements `0, …, n−1`. -/
theorem prod_sub_range_eq_zero_iff {F : Type} [Field F] (n : ℕ) (x : F) :
    ((List.range n).map (fun k : ℕ => x - (k : F))).prod = 0
      ↔ ∃ k : ℕ, k < n ∧ x = (k : F) := by
  induction n with
  | zero => simp
  | succ m ih =>
    rw [List.range_succ, List.map_append, List.prod_append]
    simp only [List.map_cons, List.map_nil, List.prod_cons, List.prod_nil,
      mul_one]
    rw [mul_eq_zero, ih, sub_eq_zero]
    constructor
    · rintro (⟨k, hk, he⟩ | he)
      · exact ⟨k, Nat.lt_succ_of_lt hk, he⟩
      · exact ⟨m, Nat.lt_succ_self m, he⟩
    · rintro ⟨k, hk, he⟩
      rcases Nat.lt_succ_iff_lt_or_eq.mp hk with h | h
      · exact Or.inl ⟨k, h, he⟩
      · subst h
        exact Or.inr he

/-- C1: in any field, the block-count final gate's product polynomial for
`step2_total` vanishes exactly when `step2_total` is one of the field
elements `0, …, 12`, and the one for `step3_total` vanishes exactly when
`step3_total` is one of `0, …, 169`; and `assign_region` enables the gate
on one row per lane for the 25 supplied pairs (rows 0–24) and constrains
each newly assigned cell equal, by an equality constraint, to the supplied
block-count cell of that same lane — the cell committed during that lane's
own lane-rotate-conversion. -/
theorem block_count_final_spec :
    ∀ (F : Type) [inst : Field F] (s2 s3 : F) (c0 c1 : ℕ)
      (bcs : Fin 25 → BlockCount F × BlockCount F),
      (step2_product s2 = 0 ↔ ∃ k : ℕ, k ≤ 12 ∧ s2 = (k : F))
      ∧ (step3_product s3 = 0 ↔ ∃ k : ℕ, k ≤ 169 ∧ s3 = (k : F))
      ∧ (block_count_final_assign_region c0 c1 bcs).enabled = List.range 25
      ∧ (∀ i : Fin 25,
          (c0, i.val, (bcs i).1.value)
              ∈ (block_count_final_assign_region c0 c1 bcs).assignments
          ∧ (c1, i.val, (bcs i).2.value)
              ∈ (block_count_final_assign_region c0 c1 bcs).assignments
          ∧ (Cell.mk c0 i.val, (bcs i).1.cell)
              ∈ (block_count_final_assign_region c0 c1 bcs).equalities
          ∧ (Cell.mk c1 i.val, (bcs i).2.cell)
              ∈ (block_count_final_assign_region c0 c1 bcs).equalities) := by
  intro F inst s2 s3 c0 c1 bcs
  refine ⟨?_, ?_, ?_, ?_⟩
  · rw [step2_product, prod_sub_range_eq_zero_iff]
    exact exists_congr fun k => and_congr_left' Nat.lt_succ_iff
  · rw [step3_product, prod_sub_range_eq_zero_iff]
    exact exists_congr fun k => and_congr_left' Nat.lt_succ_iff
  · show (List.finRange 25).map (fun i => i.val) = List.range 25
    decide
  · intro i
    refine ⟨?_, ?_, ?_, ?_⟩ <;>
      · simp only [block_count_final_assign_region, List.mem_flatMap]
        exact ⟨i, List.mem_finRange i, by simp⟩

/-- C8: on an enabled row the special-chunk gate vanishes exactly when
`base_9_acc(next) − base_9_acc(cur) = last_b9_coef · 9^rotation`; and
`assign_region` (when the embeddings succeed) writes `base_13_acc` equal to
zero on the row following the special-chunk row and returns a `Lane` whose
value is the supplied `base_9_acc` plus
`((low_value + high_value) mod 2) · 9^rotation`. -/
theorem special_chunk_spec (p : ℕ) (rotation c13 c9 offset : ℕ)
    (low_value high_value base_13_acc base_9_acc : ℕ)
    (last_b9_coef a an : ZMod p)
    (h13 : base_13_acc < p) (h9 : base_9_acc < p)
    (hpar : (high_value + low_value) % 2 < p) :
    ((∀ y ∈ special_chunk_gate rotation 1 last_b9_coef a an, y = 0)
      ↔ an - a = last_b9_coef * (B9 : ZMod p) ^ rotation)
    ∧ (∃ t lane,
        special_chunk_assign_region p rotation c13 c9 offset low_value
            high_value base_13_acc base_9_acc = .ok (t, lane)
        ∧ (c13, offset + 1, (0 : ZMod p)) ∈ t.assignments
        ∧ lane.value = (base_9_acc : ZMod p)
            + (((low_value + high_value) % 2 : ℕ) : ZMod p)
              * (B9 : ZMod p) ^ rotation) := by
  constructor
  · simp only [special_chunk_gate, List.forall_mem_cons, one_mul]
    constructor
    · rintro ⟨h1, -⟩
      exact by linear_combination h1
    · intro h1
      exact ⟨by linear_combination h1, by simp⟩
  · have h : special_chunk_assign_region p rotation c13 c9 offset low_value
        high_value base_13_acc base_9_acc =
        .ok ({ enabled := [offset]
               assignments := [(c13, offset, (base_13_acc : ZMod p)),
                 (c13, offset + 1, 0),
                 (c9, offset, (base_9_acc : ZMod p)),
                 (c9, offset + 1, (base_9_acc : ZMod p)
                   + (((high_value + low_value) % 2 : ℕ) : ZMod p)
                     * (B9 : ZMod p) ^ rotation)]
               equalities := [] },
             { cell := ⟨c9, offset + 1⟩
               value := (base_9_acc : ZMod p)
                 + (((high_value + low_value) % 2 : ℕ) : ZMod p)
                   * (B9 : ZMod p) ^ rotation }) := by
      simp only [special_chunk_assign_region, biguint_to_f, h13, h9, hpar,
        if_true]
    refine ⟨_, _, h, ?_, ?_⟩
    · simp
    · show ((base_9_acc : ZMod p)
          + (((high_value + low_value) % 2 : ℕ) : ZMod p)
            * (B9 : ZMod p) ^ rotation)
        = (base_9_acc : ZMod p)
          + (((low_value + high_value) % 2 : ℕ) : ZMod p)
            * (B9 : ZMod p) ^ rotation
      rw [Nat.add_comm low_value high_value]

/-- C9: the three value-conversion paths return a synthesis error exactly
when one of their arbitrary-precision-to-field embeddings (or, for
`RotatingVariables::from`, the field-to-arbitrary-precision conversion)
fails, return `Ok` otherwise, and report no error other than the synthesis
error. -/
theorem value_conversion_error_spec (p : ℕ) (lane : ZMod p)
    (rotation offset : ℕ) (cc pc ac c13 c9 : ℕ)
    (coef power_of_base acc low_value high_value base_13_acc
      base_9_acc : ℕ) :
    ((∃ e, RotatingVariables.«from» lane rotation = .error e)
      ↔ f_to_biguint lane = none)
    ∧ ((∃ e, running_sum_assign_region p cc pc ac offset coef power_of_base
          acc = .error e)
      ↔ biguint_to_f p coef = none ∨ biguint_to_f p power_of_base = none
        ∨ biguint_to_f p acc = none)
    ∧ ((∃ e, special_chunk_assign_region p rotation c13 c9 offset low_value
          high_value base_13_acc base_9_acc = .error e)
      ↔ biguint_to_f p base_13_acc = none
        ∨ biguint_to_f p base_9_acc = none
        ∨ biguint_to_f p ((high_value + low_value) % 2) = none)
    ∧ (∀ e, RotatingVariables.«from» lane rotation = .error e
          ∨ running_sum_assign_region p cc pc ac offset coef power_of_base
              acc = .error e
          ∨ special_chunk_assign_region p rotation c13 c9 offset low_value
              high_value base_13_acc base_9_acc = .error e
        → e = RsError.synthesisError) := by
  refine ⟨?_, ?_, ?_, ?_⟩
  · simp [RotatingVariables.«from», f_to_biguint]
  · unfold running_sum_assign_region
    by_cases h1 : coef < p <;> by_cases h2 : power_of_base < p <;>
      by_cases h3 : acc < p <;>
        simp [biguint_to_f, h1, h2, h3] <;>
          exact ⟨RsError.synthesisError, trivial⟩
  · unfold special_chunk_assign_region
    by_cases h1 : base_13_acc < p <;> by_cases h2 : base_9_acc < p <;>
      by_cases h3 : (high_value + low_value) % 2 < p <;>
        simp [biguint_to_f, h1, h2, h3] <;>
          exact ⟨RsError.synthesisError, trivial⟩
  · intro e _
    cases e
    rfl

/-- Helper: folding an empty schedule leaves the state unchanged. -/
theorem chunk_fold_nil {p : ℕ} (tbl : ℕ → ℕ × ℕ)
    (rv : RotatingVariables (ZMod p)) : chunk_fold tbl rv [] = rv := rfl

/-- Helper: folding a nonempty schedule steps once and folds the rest. -/
theorem chunk_fold_cons {p : ℕ} (tbl : ℕ → ℕ × ℕ)
    (rv : RotatingVariables (ZMod p)) (cfg : ChunkCfg)
    (rest : List ChunkCfg) :
    chunk_fold tbl rv (cfg :: rest)
      = chunk_fold tbl (chunk_assign tbl cfg rv) rest := rfl

/-- Helper: one chunk step preserves the affine relation between
`input_acc`, `input_power_of_base` and `input_raw`. -/
theorem chunk_assign_input_invariant {p : ℕ} (tbl : ℕ → ℕ × ℕ)
    (cfg : ChunkCfg) (c : ℕ) (rv : RotatingVariables (ZMod p))
    (h : rv.input_acc = c + rv.input_power_of_base * rv.input_raw) :
    (chunk_assign tbl cfg rv).input_acc
      = c + (chunk_assign tbl cfg rv).input_power_of_base
          * (chunk_assign tbl cfg rv).input_raw := by
  show rv.input_acc
        - rv.input_power_of_base * (rv.input_raw % B13 ^ cfg.step)
      = c + rv.input_power_of_base * B13 ^ cfg.step
          * (rv.input_raw / B13 ^ cfg.step)
  rw [h]
  have hsplit : rv.input_power_of_base * rv.input_raw
      = rv.input_power_of_base * (B13 ^ cfg.step * (rv.input_raw / B13 ^ cfg.step))
        + rv.input_power_of_base * (rv.input_raw % B13 ^ cfg.step) := by
    rw [← Nat.mul_add, Nat.div_add_mod]
  rw [hsplit, ← Nat.mul_assoc]
  omega

/-- Helper: the affine input relation is preserved across any chunk
schedule. -/
theorem fold_chunk_assign_input_invariant {p : ℕ} (tbl : ℕ → ℕ × ℕ)
    (c : ℕ) :
    ∀ (l : List ChunkCfg) (rv : RotatingVariables (ZMod p)),
      rv.input_acc = c + rv.input_power_of_base * rv.input_raw →
      (chunk_fold tbl rv l).input_acc
        = c + (chunk_fold tbl rv l).input_power_of_base
            * (chunk_fold tbl rv l).input_raw
  | [], _, h => h
  | cfg :: rest, rv, h =>
    fold_chunk_assign_input_invariant tbl c rest (chunk_assign tbl cfg rv)
      (chunk_assign_input_invariant tbl cfg c rv h)

/-- Helper: across any chunk schedule, `output_acc` grows by exactly the
weighted sum of the output digits produced, each at its in-force power. -/
theorem fold_chunk_assign_output_acc {p : ℕ} (tbl : ℕ → ℕ × ℕ) :
    ∀ (l : List ChunkCfg) (rv : RotatingVariables (ZMod p)),
      (chunk_fold tbl rv l).output_acc
        = rv.output_acc + weighted_sum (output_digits tbl l rv) := by
  intro l
  induction l with
  | nil =>
    intro rv
    simp [weighted_sum, output_digits, chunk_fold_nil]
  | cons cfg rest ih =>
    intro rv
    rw [chunk_fold_cons, ih]
    have hstep : (chunk_assign tbl cfg rv).output_acc
        = rv.output_acc
          + rv.output_power_of_base
            * (tbl (rv.input_raw % B13 ^ cfg.step)).2 := rfl
    rw [hstep]
    simp only [output_digits, weighted_sum, List.map_cons, List.sum_cons]
    omega

/-- Helper: the base-13 coef·power products assigned across a chunk
schedule, plus the final power-times-raw remainder, account exactly for the
initial power-times-raw mass. -/
theorem b13_rows_sum {p : ℕ} (tbl : ℕ → ℕ × ℕ) :
    ∀ (l : List ChunkCfg) (rv : RotatingVariables (ZMod p)),
      ((b13_row_assignments tbl l rv).map (fun t => t.1 * t.2.1)).sum
          + (chunk_fold tbl rv l).input_power_of_base
            * (chunk_fold tbl rv l).input_raw
        = rv.input_power_of_base * rv.input_raw := by
  intro l
  induction l with
  | nil =>
    intro rv
    simp [b13_row_assignments, chunk_fold_nil]
  | cons cfg rest ih =>
    intro rv
    rw [chunk_fold_cons]
    have h := ih (chunk_assign tbl cfg rv)
    simp only [b13_row_assignments, List.map_cons, List.sum_cons]
    have hpob : (chunk_assign tbl cfg rv).input_power_of_base
        = rv.input_power_of_base * B13 ^ cfg.step := rfl
    have hraw : (chunk_assign tbl cfg rv).input_raw
        = rv.input_raw / B13 ^ cfg.step := rfl
    rw [hpob, hraw] at h
    have hfinal : rv.input_raw % B13 ^ cfg.step * rv.input_power_of_base
        + rv.input_power_of_base * B13 ^ cfg.step
          * (rv.input_raw / B13 ^ cfg.step)
      = rv.input_power_of_base * rv.input_raw := by
      conv_rhs => rw [← Nat.div_add_mod rv.input_raw (B13 ^ cfg.step)]
      ring
    omega

/-- Helper: the input power of base after a chunk schedule is the initial
one times `13` to the sum of the step sizes. -/
theorem fold_chunk_assign_input_pob {p : ℕ} (tbl : ℕ → ℕ × ℕ) :
    ∀ (l : List ChunkCfg) (rv : RotatingVariables (ZMod p)),
      (chunk_fold tbl rv l).input_power_of_base
        = rv.input_power_of_base * B13 ^ ((l.map ChunkCfg.step).sum) := by
  intro l
  induction l with
  | nil =>
    intro rv
    simp [chunk_fold_nil]
  | cons cfg rest ih =>
    intro rv
    rw [chunk_fold_cons, ih]
    have hpob : (chunk_assign tbl cfg rv).input_power_of_base
        = rv.input_power_of_base * B13 ^ cfg.step := rfl
    rw [hpob]
    simp only [List.map_cons, List.sum_cons]
    rw [pow_add, Nat.mul_assoc]

/-- Helper: the undecomposed raw input after a chunk schedule is the
initial one divided by `13` to the sum of the step sizes. -/
theorem fold_chunk_assign_input_raw {p : ℕ} (tbl : ℕ → ℕ × ℕ) :
    ∀ (l : List ChunkCfg) (rv : RotatingVariables (ZMod p)),
      (chunk_fold tbl rv l).input_raw
        = rv.input_raw / B13 ^ ((l.map ChunkCfg.step).sum) := by
  intro l
  induction l with
  | nil =>
    intro rv
    simp [chunk_fold_nil]
  | cons cfg rest ih =>
    intro rv
    rw [chunk_fold_cons, ih]
    have hraw : (chunk_assign tbl cfg rv).input_raw
        = rv.input_raw / B13 ^ cfg.step := rfl
    rw [hraw, Nat.div_div_eq_div_mul]
    simp only [List.map_cons, List.sum_cons]
    rw [pow_add]

/-- Helper: for every rotation amount under 64, the step sizes of the
derived chunk schedule sum to 63. -/
theorem lane_chunk_cfgs_steps_sum :
    ∀ r : Fin 64, ((lane_chunk_cfgs r.val).map ChunkCfg.step).sum = 63 := by
  decide

/-- C4 (amended): for every lane value that embeds into the field, every
rotation amount `0 ≤ r < 64` and any content of the external lookup table,
at every row boundary of the chunk loop (the reserved position-0 digit
having been peeled off `input_raw` at the start) the state satisfies
`input_acc = low_value + input_power_of_base · input_raw` — `input_acc` is
the not-yet-consumed digit mass including the reserved low digit, so the
original lane value equals the weighted digits consumed so far plus
`input_acc` — and `output_acc` equals the integer value of all output
digits produced so far, each weighted by its (possibly rotation-reset)
power of 9.  The claim's formula
`input_acc + input_power_of_base · input_raw = lane value` fails because
the position-0 digit is divided out of `input_raw` without being
subtracted from `input_acc` (see the counterexample). -/
theorem rotating_variables_row_invariant (p : ℕ) (tbl : ℕ → ℕ × ℕ)
    (lane : ZMod p) (r : Fin 64) (k : ℕ) :
    (chunk_fold tbl (lane_peel (rotating_variables_init (p := p) lane.val r.val)).2
        ((lane_chunk_cfgs r.val).take k)).input_acc
      = lane.val % B13
        + (chunk_fold tbl
            (lane_peel (rotating_variables_init (p := p) lane.val r.val)).2
            ((lane_chunk_cfgs r.val).take k)).input_power_of_base
          * (chunk_fold tbl
              (lane_peel (rotating_variables_init (p := p) lane.val r.val)).2
              ((lane_chunk_cfgs r.val).take k)).input_raw
    ∧ (chunk_fold tbl (lane_peel (rotating_variables_init (p := p) lane.val r.val)).2
          ((lane_chunk_cfgs r.val).take k)).output_acc
      = weighted_sum (output_digits tbl ((lane_chunk_cfgs r.val).take k)
          (lane_peel (rotating_variables_init (p := p) lane.val r.val)).2) := by
  constructor
  · apply fold_chunk_assign_input_invariant
    show lane.val = lane.val % B13 + B13 * (lane.val / B13)
    simp only [B13]
    omega
  · rw [fold_chunk_assign_output_acc]
    exact Nat.zero_add _

/-- C4 counterexample: for the lane value 13 in the field with 17 elements
at rotation 0, at the row boundary after the first chunk row the claimed
formula `input_acc + input_power_of_base · input_raw = original lane value`
evaluates to `0 ≠ 13` (the table argument is irrelevant to the input
side). -/
theorem rotating_variables_row_invariant_counterexample :
    ¬ ((chunk_fold tableZero
          (lane_peel
            (rotating_variables_init (p := 17) (13 : ZMod 17).val 0)).2
          ((lane_chunk_cfgs 0).take 1)).input_acc
        + (chunk_fold tableZero
            (lane_peel
              (rotating_variables_init (p := 17) (13 : ZMod 17).val 0)).2
            ((lane_chunk_cfgs 0).take 1)).input_power_of_base
          * (chunk_fold tableZero
              (lane_peel
                (rotating_variables_init (p := 17) (13 : ZMod 17).val 0)).2
              ((lane_chunk_cfgs 0).take 1)).input_raw
      = (13 : ZMod 17).val) := by
  decide

/-- C6 (amended): replaying the digit sequence that lane-rotate-conversion
assigns to the base-13 running-sum gate across the lane's chunk rows and
summing `coef · power_of_base` reconstructs the original lane value minus
the reserved position-0 digit and minus the residue beyond digit position
63 (`13^64 · (lane / 13^64)`, zero for lane values below `13^64`): adding
those two terms back yields the original value exactly, for any content of
the external lookup table. -/
theorem b13_replay_reconstructs (p : ℕ) (tbl : ℕ → ℕ × ℕ) (lane : ZMod p)
    (r : Fin 64) :
    ((b13_row_assignments tbl (lane_chunk_cfgs r.val)
        (lane_peel (rotating_variables_init (p := p) lane.val r.val)).2).map
          (fun t => t.1 * t.2.1)).sum
      + lane.val % B13 + B13 ^ LANE_SIZE * (lane.val / B13 ^ LANE_SIZE)
      = lane.val := by
  have h := b13_rows_sum tbl (lane_chunk_cfgs r.val)
    (lane_peel (rotating_variables_init (p := p) lane.val r.val)).2
  rw [fold_chunk_assign_input_pob, fold_chunk_assign_input_raw,
    lane_chunk_cfgs_steps_sum r] at h
  have hpob0 : (lane_peel
      (rotating_variables_init (p := p) lane.val r.val)).2.input_power_of_base
      = B13 := rfl
  have hraw0 : (lane_peel
      (rotating_variables_init (p := p) lane.val r.val)).2.input_raw
      = lane.val / B13 := rfl
  rw [hpob0, hraw0, Nat.div_div_eq_div_mul] at h
  have e1 : B13 * B13 ^ 63 = B13 ^ LANE_SIZE := by
    rw [LANE_SIZE, ← pow_succ']
  rw [e1] at h
  simp only [B13, LANE_SIZE] at h ⊢
  generalize hX : (13 : ℕ) ^ 64 * (lane.val / 13 ^ 64) = X at h ⊢
  omega

/-- C6 counterexample: for the lane value 1 in the field with 17 elements
at rotation 0, the coef·power products assigned to the base-13 running-sum
gate across the chunk rows sum to 0, not to the original value 1: the
reserved position-0 digit is never handed to the gate. -/
theorem b13_replay_counterexample :
    ¬ (((b13_row_assignments tableZero (lane_chunk_cfgs 0)
        (lane_peel
          (rotating_variables_init (p := 17) (1 : ZMod 17).val 0)).2).map
          (fun t => t.1 * t.2.1)).sum
      = (1 : ZMod 17).val) := by
  decide

/-- Witness: the special-chunk specification instantiated in the field with
13 elements, rotation 2, columns 0 and 1, offset 4, low value 1, high value
2, base-13 accumulator 5 and base-9 accumulator 7. -/
theorem special_chunk_spec_witness :
    ((∀ y ∈ special_chunk_gate 2 1 (3 : ZMod 13) (5 : ZMod 13)
        (7 : ZMod 13), y = 0)
      ↔ (7 : ZMod 13) - 5 = 3 * (B9 : ZMod 13) ^ 2)
    ∧ (∃ t lane,
        special_chunk_assign_region 13 2 0 1 4 1 2 5 7 = .ok (t, lane)
        ∧ ((0 : ℕ), (4 + 1 : ℕ), (0 : ZMod 13)) ∈ t.assignments
        ∧ lane.value = ((7 : ℕ) : ZMod 13)
            + ((((1 + 2) % 2 : ℕ)) : ZMod 13) * (B9 : ZMod 13) ^ 2) :=
  special_chunk_spec 13 2 0 1 4 1 2 5 7 3 5 7 (by decide) (by decide)
    (by decide)
